import Mathlib

/-!
Verification of the manifest-merge and brace-balanced scope-extraction core of
the Android plugin build service (`android-plugin-build-service.ts`).

The shallow embedding below mirrors the TypeScript source:

* Parsed XML trees (the output of the external `xml2js.parseString`) are
  JavaScript values: strings, objects (ordered association lists of
  key/value pairs with unique keys) and arrays.  The attribute container is
  the conventional key `"$"`.
* A thrown `TypeError` (reading or writing a property of `undefined`) is
  modelled as `none`; ordinary returns are `some`.
* `createManifestContent` aliases the static `MANIFEST_ROOT` object and
  mutates it, so it is embedded with explicit state passing: it receives the
  current value of the static and returns the produced tree together with
  the new value of the static.
* The external serializer (`Builder.buildObject`) and parser round-trip is
  treated per the external-interface contract as content preserving, so the
  merge functions are stated at the level of the parsed tree; string
  serialization adds nothing the claims depend on.
* Strings are ASCII in every input the claims touch, so JavaScript UTF-16
  code-unit indexing and Lean `Char`-list indexing agree.
-/

namespace AndroidPluginBuild

/-- A JavaScript value as produced by the external XML parser: a string, an
object (association list, insertion ordered, unique keys) or an array. -/
inductive JsVal where
  | str : String → JsVal
  | obj : List (String × JsVal) → JsVal
  | arr : List JsVal → JsVal

/-- JavaScript property read on an object: first binding of the key, `none`
when the key is absent (JavaScript `undefined`). -/
def lookupJs : List (String × JsVal) → String → Option JsVal
  | [], _ => none
  | (k, v) :: t, key => if k = key then some v else lookupJs t key

/-- JavaScript property read on an arbitrary value.  Reading a named property
of a primitive string or of an array yields `undefined` (`none`), not an
error; only objects can hold the properties this code reads. -/
def getProp (v : JsVal) (key : String) : Option JsVal :=
  match v with
  | JsVal.obj props => lookupJs props key
  | _ => none

/-- JavaScript truthiness of a parsed value: the empty string is falsy,
every other string and every object/array is truthy. -/
def truthy : JsVal → Bool
  | JsVal.str s => s ≠ ""
  | JsVal.obj _ => true
  | JsVal.arr _ => true

/-- JavaScript property assignment `o[key] = v` on an object: overwrite the
first binding of the key in place, or append the binding when absent. -/
def setKey : List (String × JsVal) → String → JsVal → List (String × JsVal)
  | [], key, v => [(key, v)]
  | (k, w) :: t, key, v => if k = key then (key, v) :: t else (k, w) :: setKey t key v

/-- The final lines of `updateManifestContent` (source lines 63-69): copy
every property of the chosen node into a fresh `manifest` node and then run
`newManifest.manifest["$"]["package"] = packageName`.  When the copied
properties have no `"$"` key that assignment reads a property of
`undefined` and throws (`none`).  The `"$"` value is an object in every
parser-produced tree; a primitive there is modelled as failure as well. -/
def finishMerge (props : List (String × JsVal)) (packageName : JsVal) :
    Option (List (String × JsVal)) :=
  match lookupJs props "$" with
  | some (JsVal.obj attrs) =>
      some [("manifest", JsVal.obj (setKey props "$" (JsVal.obj (setKey attrs "package" packageName))))]
  | some _ => none
  | none => none

/-- The package-precedence step of `updateManifestContent` (source lines
52-57): a truthy existing `package` value wins, anything else (absent,
empty string) falls back to the default. -/
def effectivePackage (pkg : Option JsVal) (defaultPackageName : String) : JsVal :=
  match pkg with
  | some v => if truthy v then v else JsVal.str defaultPackageName
  | none => JsVal.str defaultPackageName

/-- The tree-level body of `updateManifestContent` (source lines 49-75) after
the parse step succeeded.  `if (xml["manifest"])` tests JavaScript
truthiness, so a `manifest` key bound to the empty string falls through to
the fragment branch; a truthy non-object `manifest` value makes the read
`xml["manifest"]["$"]["package"]` throw. -/
def updateManifestLogic (xml : List (String × JsVal)) (defaultPackageName : String) :
    Option (List (String × JsVal)) :=
  match lookupJs xml "manifest" with
  | some (JsVal.obj mprops) =>
      match lookupJs mprops "$" with
      | some attrs =>
          finishMerge mprops (effectivePackage (getProp attrs "package") defaultPackageName)
      | none => none
  | some (JsVal.str s) =>
      if s = "" then finishMerge xml (JsVal.str defaultPackageName) else none
  | some (JsVal.arr _) => none
  | none => finishMerge xml (JsVal.str defaultPackageName)

/-- The effective `package` attribute of a merge result: the `package` entry
of the attribute container of the top-level `manifest` node. -/
def resultPackage (r : Option (List (String × JsVal))) : Option JsVal :=
  match r with
  | none => none
  | some t =>
      match lookupJs t "manifest" with
      | some m =>
          match getProp m "$" with
          | some a => getProp a "package"
          | none => none
      | none => none

/-- The static template `MANIFEST_ROOT` (source lines 23-27). -/
def MANIFEST_ROOT : List (String × JsVal) :=
  [("$", JsVal.obj [("xmlns:android", JsVal.str "http://schemas.android.com/apk/res/android")])]

/-- `createManifestContent` (source lines 77-84) with the static
`MANIFEST_ROOT` passed explicitly: `newManifest.manifest` aliases the static
object, so the assignment of the `package` attribute mutates the static.
The result is the produced tree paired with the new value of the static. -/
def createManifestContent (root : List (String × JsVal)) (packageName : String) :
    Option ((List (String × JsVal)) × (List (String × JsVal))) :=
  match lookupJs root "$" with
  | some (JsVal.obj attrs) =>
      let root2 := setKey root "$" (JsVal.obj (setKey attrs "package" (JsVal.str packageName)))
      some ([("manifest", JsVal.obj root2)], root2)
  | some _ => none
  | none => none

/-- `updateManifestContent` including the awaited `getXml` parse step
(source lines 49-50 and 86-98): a parser rejection is re-raised unmodified
and nothing after the `await` runs. -/
def updateManifestContentE (parsed : Except String (List (String × JsVal)))
    (defaultPackageName : String) : Except String (Option (List (String × JsVal))) :=
  match parsed with
  | Except.error e => Except.error e
  | Except.ok xml => Except.ok (updateManifestLogic xml defaultPackageName)

/-- First index at which `pat` occurs as a contiguous sublist of `l`
(JavaScript `String.prototype.indexOf`, with `none` for `-1`); the empty
pattern occurs at index `0`. -/
def listIndexOf (l pat : List Char) : Option Nat :=
  if pat.isPrefixOf l then some 0
  else
    match l with
    | [] => none
    | _ :: t => (listIndexOf t pat).map (fun n => n + 1)

/-- JavaScript `content.indexOf(scopeName)` on strings. -/
def strIndexOf (s pat : String) : Option Nat :=
  listIndexOf s.data pat.data

/-- The character `{`. -/
def openingBracket : Char := Char.ofNat 123

/-- The character `}`. -/
def closingBracket : Char := Char.ofNat 125

/-- One pass of the `while` loop of `getScope` (source lines 131-152) over
the remaining characters, carrying the `openBrackets` counter (an integer:
a stray `}` drives it negative), the `foundFirstBracket` flag and the
accumulated `result`.  The loop appends the current character before the
break test, so the breaking `}` is included. -/
def scanLoop : List Char → Int → Bool → List Char → List Char
  | [], _, _, acc => acc
  | c :: rest, openBrackets, foundFirstBracket, acc =>
      let fnd := if c = openingBracket ∧ openBrackets = 0 then true else foundFirstBracket
      let ob := if c = openingBracket then openBrackets + 1
                else if c = closingBracket then openBrackets - 1 else openBrackets
      let acc2 := acc ++ [c]
      if ob = 0 ∧ fnd = true then acc2 else scanLoop rest ob fnd acc2

/-- `getScope` (source lines 122-155).  When `indexOf` misses, the loop
starts at `i = -1`: `content[-1]` is `undefined`, which is neither bracket,
`result += undefined` appends the nine characters `undefined`, no break
fires, and the scan proceeds from index `0`.  When `indexOf` hits, the scan
starts at the reported index with an empty accumulator. -/
def getScope (scopeName content : String) : String :=
  match strIndexOf content scopeName with
  | some idx => String.mk (scanLoop (content.data.drop idx) 0 false [])
  | none => String.mk (scanLoop content.data 0 false ("undefined".data))

/-- `getIncludeGradleCompileDependenciesScope` (source lines 100-120). -/
def getIncludeGradleCompileDependenciesScope (includeGradleFileContent : String) :
    List String :=
  match strIndexOf includeGradleFileContent "dependencies" with
  | none => []
  | some _ =>
      match strIndexOf includeGradleFileContent "repositories" with
      | none => [getScope "dependencies" includeGradleFileContent]
      | some _ =>
          [getScope "repositories" includeGradleFileContent,
           getScope "dependencies" includeGradleFileContent]

/-- Whether the scan of `getScope` reaches its break (`openBrackets` back to
`0` with `foundFirstBracket` set) somewhere within the given characters. -/
def scanBreaks : List Char → Int → Bool → Bool
  | [], _, _ => false
  | c :: rest, openBrackets, foundFirstBracket =>
      let fnd := if c = openingBracket ∧ openBrackets = 0 then true else foundFirstBracket
      let ob := if c = openingBracket then openBrackets + 1
                else if c = closingBracket then openBrackets - 1 else openBrackets
      if ob = 0 ∧ fnd = true then true else scanBreaks rest ob fnd

/-- Brace weight of a character: `{` counts `+1`, `}` counts `-1`. -/
def braceDelta (c : Char) : Int :=
  if c = openingBracket then 1 else if c = closingBracket then -1 else 0

/-- Sum of brace weights of a character list. -/
def braceSum (l : List Char) : Int :=
  (l.map braceDelta).sum

/-- `true` when the list contains no brace at all. -/
def braceFree (l : List Char) : Bool :=
  l.all (fun c => c ≠ openingBracket && c ≠ closingBracket)

/-- Running check that every prefix has nonnegative brace weight and the
total is zero, starting from accumulator `a`. -/
def balGo : List Char → Int → Bool
  | [], a => a == 0
  | c :: t, a =>
      let a2 := a + braceDelta c
      if a2 < 0 then false else balGo t a2

/-- A properly brace-balanced character list: total weight zero and no
prefix dips below zero. -/
def balancedB (l : List Char) : Bool :=
  balGo l 0

/-- Modelled from the spec: the external serializer/parser round trip
(`Builder.buildObject` then `parseString`, external interfaces of the core)
is required to preserve the semantic content of the tree, so at the tree
level it is the identity. -/
def serializeParse (t : List (String × JsVal)) : List (String × JsVal) := t

/-! ## Association-list and tree lemmas -/

theorem lookupJs_setKey_self (l : List (String × JsVal)) (k : String) (v : JsVal) :
    lookupJs (setKey l k v) k = some v := by
  induction l with
  | nil => simp [setKey, lookupJs]
  | cons hd t ih =>
      obtain ⟨k2, w⟩ := hd
      by_cases hk : k2 = k
      · subst hk
        simp [setKey, lookupJs]
      · simp [setKey, lookupJs, hk, ih]

theorem finishMerge_eq (props attrs : List (String × JsVal)) (pkg : JsVal)
    (ha : lookupJs props "$" = some (JsVal.obj attrs)) :
    finishMerge props pkg =
      some [("manifest", JsVal.obj (setKey props "$" (JsVal.obj (setKey attrs "package" pkg))))] := by
  simp [finishMerge, ha]

theorem resultPackage_shape (P A : List (String × JsVal)) (V : JsVal) :
    resultPackage (some [("manifest",
        JsVal.obj (setKey P "$" (JsVal.obj (setKey A "package" V))))]) = some V := by
  simp [resultPackage, lookupJs, getProp, lookupJs_setKey_self]

theorem resultPackage_finishMerge (props attrs : List (String × JsVal)) (pkg : JsVal)
    (ha : lookupJs props "$" = some (JsVal.obj attrs)) :
    resultPackage (finishMerge props pkg) = some pkg := by
  rw [finishMerge_eq props attrs pkg ha, resultPackage_shape]

theorem finishMerge_shape (props : List (String × JsVal)) (pkg : JsVal)
    (t : List (String × JsVal)) (h : finishMerge props pkg = some t) :
    ∃ attrs, lookupJs props "$" = some (JsVal.obj attrs) ∧
      t = [("manifest", JsVal.obj (setKey props "$" (JsVal.obj (setKey attrs "package" pkg))))] := by
  unfold finishMerge at h
  split at h
  next attrs heq =>
    exact ⟨attrs, heq, (Option.some.inj h).symm⟩
  next => exact absurd h (by simp)
  next => exact absurd h (by simp)

theorem updateManifestLogic_shape (xml : List (String × JsVal)) (d : String)
    (t : List (String × JsVal)) (h : updateManifestLogic xml d = some t) :
    ∃ P A V, t = [("manifest", JsVal.obj (setKey P "$" (JsVal.obj (setKey A "package" V))))]
      ∧ (V = JsVal.str d ∨ truthy V = true) := by
  unfold updateManifestLogic at h
  split at h
  next mprops hm =>
    split at h
    next attrs hattrs =>
      obtain ⟨A, hA, ht⟩ := finishMerge_shape _ _ _ h
      refine ⟨mprops, A, _, ht, ?_⟩
      unfold effectivePackage
      split
      next v hv =>
        by_cases htr : truthy v = true
        · simp [htr]
        · simp [htr]
      next => simp
    next => exact absurd h (by simp)
  next s hm =>
    split at h
    · obtain ⟨A, hA, ht⟩ := finishMerge_shape _ _ _ h
      exact ⟨xml, A, _, ht, Or.inl rfl⟩
    · exact absurd h (by simp)
  next hm => exact absurd h (by simp)
  next hm =>
    obtain ⟨A, hA, ht⟩ := finishMerge_shape _ _ _ h
    exact ⟨xml, A, _, ht, Or.inl rfl⟩

/-! ## Scan-loop lemmas -/

theorem data_append (a b : String) : (a ++ b).data = a.data ++ b.data := rfl

theorem braceSum_nil : braceSum [] = 0 := rfl

theorem braceSum_cons (c : Char) (t : List Char) :
    braceSum (c :: t) = braceDelta c + braceSum t := by
  simp [braceSum]

theorem ob_update_eq (c : Char) (ob : Int) :
    (if c = openingBracket then ob + 1 else if c = closingBracket then ob - 1 else ob) =
      ob + braceDelta c := by
  have hco : closingBracket ≠ openingBracket := by decide
  unfold braceDelta
  by_cases h1 : c = openingBracket
  · simp [h1]
  · by_cases h2 : c = closingBracket
    · subst h2
      rw [if_neg hco, if_neg hco, if_pos rfl, if_pos rfl]
      omega
    · simp [h1, h2]

theorem scanLoop_acc (l : List Char) :
    ∀ (ob : Int) (f : Bool) (acc : List Char),
      scanLoop l ob f acc = acc ++ scanLoop l ob f [] := by
  induction l with
  | nil => intro ob f acc; simp [scanLoop]
  | cons c rest ih =>
      intro ob f acc
      simp only [scanLoop]
      by_cases hc : ((if c = openingBracket then ob + 1
          else if c = closingBracket then ob - 1 else ob) = 0 ∧
          (if c = openingBracket ∧ ob = 0 then true else f) = true)
      · simp [hc]
      · simp only [if_neg hc]
        rw [ih _ _ (acc ++ [c]), ih _ _ ([] ++ [c])]
        simp

theorem scanLoop_length (l : List Char) :
    ∀ (ob : Int) (f : Bool) (acc : List Char),
      (scanLoop l ob f acc).length ≤ acc.length + l.length := by
  induction l with
  | nil => intro ob f acc; simp [scanLoop]
  | cons c rest ih =>
      intro ob f acc
      simp only [scanLoop]
      by_cases hc : ((if c = openingBracket then ob + 1
          else if c = closingBracket then ob - 1 else ob) = 0 ∧
          (if c = openingBracket ∧ ob = 0 then true else f) = true)
      · simp [hc]
      · simp only [if_neg hc]
        have h2 : (acc ++ [c]).length + rest.length ≤ acc.length + (c :: rest).length := by
          simp only [List.length_append, List.length_cons, List.length_nil]
          omega
        exact le_trans (ih _ _ _) h2

theorem scanLoop_no_break (l : List Char) :
    ∀ (ob : Int) (f : Bool) (acc : List Char), scanBreaks l ob f = false →
      scanLoop l ob f acc = acc ++ l := by
  induction l with
  | nil => intro ob f acc _; simp [scanLoop]
  | cons c rest ih =>
      intro ob f acc hb
      simp only [scanLoop]
      simp only [scanBreaks] at hb
      by_cases hc : ((if c = openingBracket then ob + 1
          else if c = closingBracket then ob - 1 else ob) = 0 ∧
          (if c = openingBracket ∧ ob = 0 then true else f) = true)
      · rw [if_pos hc] at hb
        exact absurd hb (by simp)
      · rw [if_neg hc] at hb
        rw [if_neg hc, ih _ _ _ hb]
        simp

theorem scanLoop_neutral_step (c : Char) (rest acc : List Char) (ob : Int)
    (hc1 : c ≠ openingBracket) (hc2 : c ≠ closingBracket) :
    scanLoop (c :: rest) ob false acc = scanLoop rest ob false (acc ++ [c]) := by
  simp only [scanLoop]
  rw [ob_update_eq]
  have hd : braceDelta c = 0 := by simp [braceDelta, hc1, hc2]
  rw [hd, add_zero]
  split
  next hbrk => exact absurd hbrk.1 hc1
  next => simp

theorem scanLoop_braceFree (u : List Char) :
    ∀ (ob : Int) (rest acc : List Char), braceFree u = true →
      scanLoop (u ++ rest) ob false acc = scanLoop rest ob false (acc ++ u) := by
  induction u with
  | nil => intro ob rest acc _; simp
  | cons c t ih =>
      intro ob rest acc hu
      simp only [braceFree, List.all_cons, Bool.and_eq_true, decide_eq_true_eq] at hu
      obtain ⟨⟨hc1, hc2⟩, ht⟩ := hu
      rw [List.cons_append, scanLoop_neutral_step c (t ++ rest) acc ob hc1 hc2]
      rw [ih _ _ _ ht]
      simp

theorem scanLoop_open (rest acc : List Char) :
    scanLoop (openingBracket :: rest) 0 false acc =
      scanLoop rest 1 true (acc ++ [openingBracket]) := by
  simp [scanLoop, openingBracket, closingBracket]

theorem scanLoop_body (body : List Char) :
    ∀ (ob : Int) (rest acc : List Char),
      (∀ p q, body = p ++ q → 1 ≤ ob + braceSum p) →
      scanLoop (body ++ rest) ob true acc = scanLoop rest (ob + braceSum body) true (acc ++ body) := by
  induction body with
  | nil => intro ob rest acc _; simp [braceSum_nil]
  | cons c t ih =>
      intro ob rest acc hpre
      have hc1 : 1 ≤ ob + braceDelta c := by
        have := hpre [c] t rfl
        rwa [braceSum_cons, braceSum_nil, add_zero] at this
      simp only [List.cons_append, scanLoop, ite_self]
      rw [ob_update_eq]
      split
      next hbrk =>
        exfalso
        have := hbrk.1
        omega
      next =>
        simp only [List.append_eq]
        rw [ih (ob + braceDelta c) rest (acc ++ [c]) ?_]
        · rw [braceSum_cons]
          have hassoc : ob + braceDelta c + braceSum t = ob + (braceDelta c + braceSum t) := by
            ring
          rw [hassoc]
          simp
        · intro p q hpq
          have := hpre (c :: p) q (by rw [hpq, List.cons_append])
          rwa [braceSum_cons, ← add_assoc] at this

theorem scanLoop_close (rest acc : List Char) :
    scanLoop (closingBracket :: rest) 1 true acc = acc ++ [closingBracket] := by
  simp [scanLoop, openingBracket, closingBracket]

theorem balGo_spec (l : List Char) :
    ∀ a : Int, 0 ≤ a → balGo l a = true →
      a + braceSum l = 0 ∧ ∀ p q, l = p ++ q → 0 ≤ a + braceSum p := by
  induction l with
  | nil =>
      intro a ha h
      simp only [balGo, beq_iff_eq] at h
      refine ⟨by simp [braceSum_nil, h], ?_⟩
      intro p q hpq
      have hp : p = [] := by
        cases p with
        | nil => rfl
        | cons x xs => exact absurd hpq (by simp)
      subst hp
      simp [braceSum_nil, h]
  | cons c t ih =>
      intro a ha h
      simp only [balGo] at h
      by_cases hneg : a + braceDelta c < 0
      · rw [if_pos hneg] at h
        exact absurd h (by simp)
      · rw [if_neg hneg] at h
        have h2 := ih (a + braceDelta c) (by omega) h
        constructor
        · rw [braceSum_cons, ← add_assoc]
          exact h2.1
        · intro p q hpq
          cases p with
          | nil => simpa [braceSum_nil] using ha
          | cons x xs =>
              obtain ⟨hx1, hx2⟩ := List.cons.inj hpq
              subst hx1
              have := h2.2 xs q hx2
              rw [braceSum_cons, ← add_assoc]
              exact this

/-! ## Branch equations for `getScope` -/

theorem getScope_eq_found (scopeName content : String) (idx : Nat)
    (h : strIndexOf content scopeName = some idx) :
    getScope scopeName content = String.mk (scanLoop (content.data.drop idx) 0 false []) := by
  unfold getScope
  rw [h]

theorem getScope_eq_missing (scopeName content : String)
    (h : strIndexOf content scopeName = none) :
    getScope scopeName content = String.mk (scanLoop content.data 0 false ("undefined".data)) := by
  unfold getScope
  rw [h]

/-! ## Claim theorems -/

/-- C1 counterexample: the claim says `getScope` returns absence (the empty
string, its only absence value) when the scope name does not occur in the
text.  On `"hello"` the name `"dependencies"` does not occur, yet the
result is the nonempty string `"undefinedhello"`: the `i = -1` start index
appends the characters of `undefined` and then the whole text is scanned. -/
theorem c1_counterexample :
    strIndexOf "hello" "dependencies" = none ∧
    getScope "dependencies" "hello" = "undefinedhello" ∧
    getScope "dependencies" "hello" ≠ "" := by
  refine ⟨by decide, by decide, by decide⟩

/-- C1 (corrected): `getScope` never reports absence in the two claimed
cases.  When the scope name does not occur, the result starts with the
nine spurious characters `undefined` (JavaScript string-concatenation of
the `undefined` read at index `-1`).  When the name occurs at `idx` but the
scan reaches the end of the text without completing a brace-balanced block,
the result is the whole partial suffix of the text from `idx`, not
absence. -/
theorem c1_amended_no_absence (scopeName content : String) :
    (strIndexOf content scopeName = none →
        ∃ rest : String, getScope scopeName content = "undefined" ++ rest)
    ∧ (∀ idx : Nat, strIndexOf content scopeName = some idx →
        scanBreaks (content.data.drop idx) 0 false = false →
        getScope scopeName content = String.mk (content.data.drop idx)) := by
  constructor
  · intro h
    refine ⟨String.mk (scanLoop content.data 0 false []), ?_⟩
    rw [getScope_eq_missing scopeName content h, scanLoop_acc]
    rfl
  · intro idx h hnb
    rw [getScope_eq_found scopeName content idx h, scanLoop_no_break _ _ _ _ hnb]
    simp

/-- C1 witness: a text in which `"dependencies"` occurs at index 0 but no
brace-balanced block follows; the result is the full (nonempty) suffix. -/
theorem c1_amended_no_absence_witness :
    getScope "dependencies" "dependencies with no block" =
      String.mk (("dependencies with no block").data.drop 0) :=
  (c1_amended_no_absence "dependencies" "dependencies with no block").2 0 (by decide) (by decide)

/-- C2 (code bug): a parsed fragment whose top level has no attribute
container (no `"$"` key) — e.g. the parse of `<uses-sdk/>` — makes
`updateManifestContent` throw a `TypeError` at
`newManifest.manifest["$"]["package"] = packageName` (modelled as `none`)
instead of creating the container and succeeding as the spec requires. -/
theorem c2_missing_attr_container_crash :
    updateManifestLogic [("uses-sdk", JsVal.obj [])] "org.nativescript.myplugin" = none := rfl

/-- C3 counterexample: an existing manifest whose `manifest` node has no
attribute container at all (so its `package` attribute is absent) does not
yield the default identifier as the claim states — the merge crashes
(`xml["manifest"]["$"]` is `undefined` and reading `["package"]` on it
throws, modelled as `none`). -/
theorem c3_counterexample :
    updateManifestLogic [("manifest", JsVal.obj [("uses-sdk", JsVal.obj [])])]
        "org.default" = none ∧
    resultPackage (updateManifestLogic [("manifest", JsVal.obj [("uses-sdk", JsVal.obj [])])]
        "org.default") ≠ some (JsVal.str "org.default") :=
  ⟨rfl, fun h => Option.noConfusion h⟩

/-- C3 (corrected): for every existing manifest whose top-level `manifest`
node carries an attribute container, the existing non-empty `package`
attribute wins over the default, and the default is used when the `package`
attribute is missing from the container or empty.  (When the container
itself is absent the operation crashes instead — see the counterexample
and C2.) -/
theorem c3_amended_package_precedence (xml mprops attrs : List (String × JsVal)) (d p : String)
    (hm : lookupJs xml "manifest" = some (JsVal.obj mprops))
    (ha : lookupJs mprops "$" = some (JsVal.obj attrs)) :
    (lookupJs attrs "package" = some (JsVal.str p) → p ≠ "" →
        resultPackage (updateManifestLogic xml d) = some (JsVal.str p))
    ∧ (lookupJs attrs "package" = none →
        resultPackage (updateManifestLogic xml d) = some (JsVal.str d))
    ∧ (lookupJs attrs "package" = some (JsVal.str "") →
        resultPackage (updateManifestLogic xml d) = some (JsVal.str d)) := by
  have hu : updateManifestLogic xml d =
      finishMerge mprops (effectivePackage (lookupJs attrs "package") d) := by
    simp only [updateManifestLogic, hm, ha, getProp]
  refine ⟨?_, ?_, ?_⟩
  · intro hpkg hne
    rw [hu, hpkg]
    have he : effectivePackage (some (JsVal.str p)) d = JsVal.str p := by
      simp [effectivePackage, truthy, hne]
    rw [he]
    exact resultPackage_finishMerge mprops attrs _ ha
  · intro hpkg
    rw [hu, hpkg]
    exact resultPackage_finishMerge mprops attrs _ ha
  · intro hpkg
    rw [hu, hpkg]
    have he : effectivePackage (some (JsVal.str "")) d = JsVal.str d := by
      simp [effectivePackage, truthy]
    rw [he]
    exact resultPackage_finishMerge mprops attrs _ ha

/-- C3 witness: a manifest declaring `package="com.example"` keeps that
value against the default `"org.default"`. -/
theorem c3_amended_package_precedence_witness :
    resultPackage (updateManifestLogic
      [("manifest", JsVal.obj [("$", JsVal.obj [("package", JsVal.str "com.example")])])]
      "org.default") = some (JsVal.str "com.example") :=
  (c3_amended_package_precedence
    [("manifest", JsVal.obj [("$", JsVal.obj [("package", JsVal.str "com.example")])])]
    [("$", JsVal.obj [("package", JsVal.str "com.example")])]
    [("package", JsVal.str "com.example")]
    "org.default" "com.example" rfl rfl).1 rfl (by decide)

/-- C4 (code bug): a parsed fragment (no top-level `manifest` key) — which,
as produced by the external parser, never carries a top-level `"$"` key —
makes the merge crash (modelled as `none`) instead of synthesizing a
`manifest` node with `package` equal to the default identifier. -/
theorem c4_fragment_crash :
    updateManifestLogic [("application", JsVal.obj [("label", JsVal.str "x")])]
        "org.fragment" = none ∧
    resultPackage (updateManifestLogic [("application", JsVal.obj [("label", JsVal.str "x")])]
        "org.fragment") ≠ some (JsVal.str "org.fragment") :=
  ⟨rfl, fun h => Option.noConfusion h⟩

/-- C5 counterexample: one call of `createManifestContent` on the pristine
static template leaves the static with a `package` attribute added to its
attribute container — the template is not identical before and after the
call, because `newManifest.manifest` aliases the static object instead of
copying it. -/
theorem c5_counterexample :
    createManifestContent MANIFEST_ROOT "org.test" =
      some ([("manifest", JsVal.obj
          [("$", JsVal.obj
            [("xmlns:android", JsVal.str "http://schemas.android.com/apk/res/android"),
             ("package", JsVal.str "org.test")])])],
        [("$", JsVal.obj
          [("xmlns:android", JsVal.str "http://schemas.android.com/apk/res/android"),
           ("package", JsVal.str "org.test")])]) ∧
    ([("$", JsVal.obj
        [("xmlns:android", JsVal.str "http://schemas.android.com/apk/res/android"),
         ("package", JsVal.str "org.test")])] : List (String × JsVal)) ≠ MANIFEST_ROOT := by
  refine ⟨rfl, ?_⟩
  simp [MANIFEST_ROOT]

/-- C5 (corrected): `updateManifestContent` and `getScope` are pure
functions of their arguments, but `createManifestContent` mutates the
shared static `MANIFEST_ROOT`: a call with identifier `p` leaves the
template's attribute container holding `package = p`, so the template is
not identical before and after the call.  The produced output is
nevertheless unaffected by the residue: a later call from the mutated
static yields exactly the same result as a call from the pristine one. -/
theorem c5_amended_static_mutation (p q : String) :
    ∃ out1 root1, createManifestContent MANIFEST_ROOT p = some (out1, root1) ∧
      root1 ≠ MANIFEST_ROOT ∧
      lookupJs root1 "$" = some (JsVal.obj
        [("xmlns:android", JsVal.str "http://schemas.android.com/apk/res/android"),
         ("package", JsVal.str p)]) ∧
      createManifestContent root1 q = createManifestContent MANIFEST_ROOT q := by
  refine ⟨[("manifest", JsVal.obj
      [("$", JsVal.obj
        [("xmlns:android", JsVal.str "http://schemas.android.com/apk/res/android"),
         ("package", JsVal.str p)])])],
    [("$", JsVal.obj
      [("xmlns:android", JsVal.str "http://schemas.android.com/apk/res/android"),
       ("package", JsVal.str p)])], rfl, ?_, rfl, rfl⟩
  simp [MANIFEST_ROOT]

/-- C6: the dispatch of `getIncludeGradleCompileDependenciesScope` — empty
result when `dependencies` does not occur (whether or not `repositories`
does), one extracted scope when only `dependencies` occurs, and the
`repositories` scope first followed by the `dependencies` scope when both
occur. -/
theorem c6_compile_dependency_scopes (content : String) :
    (strIndexOf content "dependencies" = none →
        getIncludeGradleCompileDependenciesScope content = [])
    ∧ (∀ i : Nat, strIndexOf content "dependencies" = some i →
        strIndexOf content "repositories" = none →
        getIncludeGradleCompileDependenciesScope content = [getScope "dependencies" content])
    ∧ (∀ i j : Nat, strIndexOf content "dependencies" = some i →
        strIndexOf content "repositories" = some j →
        getIncludeGradleCompileDependenciesScope content =
          [getScope "repositories" content, getScope "dependencies" content]) := by
  refine ⟨?_, ?_, ?_⟩
  · intro h
    simp [getIncludeGradleCompileDependenciesScope, h]
  · intro i h hr
    simp [getIncludeGradleCompileDependenciesScope, h, hr]
  · intro i j h hr
    simp [getIncludeGradleCompileDependenciesScope, h, hr]

/-- C6 witness: both blocks present, repositories block emitted first. -/
theorem c6_compile_dependency_scopes_witness :
    getIncludeGradleCompileDependenciesScope
        "repositories \x7b maven \x7d\ndependencies \x7b compile x \x7d" =
      ["repositories \x7b maven \x7d", "dependencies \x7b compile x \x7d"] := by
  have h := (c6_compile_dependency_scopes
    "repositories \x7b maven \x7d\ndependencies \x7b compile x \x7d").2.2 23 0
    (by decide) (by decide)
  rw [h]
  decide

theorem mk_data (s : String) : String.mk s.data = s := rfl

/-- C7: when the text is any prefix, then the scope name, then brace-free
filler, then an opening brace, a properly brace-balanced body (which may
contain arbitrarily nested brace blocks) and the matching closing brace,
`getScope` returns exactly the span from the first occurrence of the scope
name through the closing brace that brings the depth counter back to zero —
the full nested body included, nothing truncated at an inner closing
brace. -/
theorem c7_getScope_balanced_span (pre name mid body post : String)
    (hidx : strIndexOf (pre ++ name ++ mid ++ "\x7b" ++ body ++ "\x7d" ++ post) name =
      some pre.length)
    (hname : braceFree name.data = true)
    (hmid : braceFree mid.data = true)
    (hbody : balancedB body.data = true) :
    getScope name (pre ++ name ++ mid ++ "\x7b" ++ body ++ "\x7d" ++ post) =
      name ++ mid ++ "\x7b" ++ body ++ "\x7d" := by
  obtain ⟨hsum, hpref⟩ := balGo_spec body.data 0 le_rfl hbody
  rw [zero_add] at hsum
  have hpre2 : ∀ p2 q2, body.data = p2 ++ q2 → 1 ≤ (1 : Int) + braceSum p2 := by
    intro p2 q2 hpq
    have := hpref p2 q2 hpq
    omega
  rw [getScope_eq_found _ _ _ hidx]
  have hdata : (pre ++ name ++ mid ++ "\x7b" ++ body ++ "\x7d" ++ post).data =
      pre.data ++ (name.data ++ (mid.data ++ (openingBracket ::
        (body.data ++ (closingBracket :: post.data))))) := by
    simp [data_append]
    exact ⟨rfl, rfl⟩
  rw [hdata, show pre.length = pre.data.length from rfl, List.drop_left]
  rw [scanLoop_braceFree name.data 0 _ [] hname]
  rw [scanLoop_braceFree mid.data 0 _ _ hmid]
  rw [scanLoop_open]
  rw [scanLoop_body body.data 1 _ _ hpre2, hsum, add_zero]
  rw [scanLoop_close]
  have hgoal : (((([] : List Char) ++ name.data) ++ mid.data) ++ [openingBracket] ++
      body.data) ++ [closingBracket] =
      (name ++ mid ++ "\x7b" ++ body ++ "\x7d").data := by
    simp [data_append]
    exact ⟨rfl, rfl⟩
  rw [hgoal, mk_data]

/-- C7 witness: the spec's nested example — the returned span includes the
inner nested block and ends at the outer closing brace. -/
theorem c7_getScope_balanced_span_witness :
    getScope "dependencies" "dependencies \x7b compile x; nested \x7b inner \x7d \x7d" =
      "dependencies \x7b compile x; nested \x7b inner \x7d \x7d" := by
  have h := c7_getScope_balanced_span "" "dependencies" " "
      " compile x; nested \x7b inner \x7d " ""
      (by decide) (by decide) (by decide) (by decide)
  exact h

/-- C8: a parser rejection is re-raised by the merge unmodified — the
result is exactly the parser's error, and in particular no (partial)
manifest is ever returned alongside or instead of it. -/
theorem c8_parse_error_propagation (e defaultPackageName : String) :
    updateManifestContentE (Except.error e) defaultPackageName = Except.error e ∧
    ∀ r, updateManifestContentE (Except.error e) defaultPackageName ≠ Except.ok r :=
  ⟨rfl, fun _ h => Except.noConfusion h⟩

/-- C8 witness: a concrete parser error string is returned unchanged. -/
theorem c8_parse_error_propagation_witness :
    updateManifestContentE (Except.error "Non-whitespace before first tag") "org.x" =
      Except.error "Non-whitespace before first tag" :=
  (c8_parse_error_propagation "Non-whitespace before first tag" "org.x").1

/-- C9: re-merging the (serialized and re-parsed) result of a successful
merge with the same default succeeds and yields the same effective
`package` value — the merge is idempotent on the package attribute. -/
theorem c9_remerge_idempotent (xml : List (String × JsVal)) (d : String)
    (t : List (String × JsVal)) (h : updateManifestLogic xml d = some t) :
    updateManifestLogic (serializeParse t) d ≠ none ∧
    resultPackage (updateManifestLogic (serializeParse t) d) = resultPackage (some t) := by
  obtain ⟨P, A, V, ht, hV⟩ := updateManifestLogic_shape xml d t h
  subst ht
  have hP2 : lookupJs (setKey P "$" (JsVal.obj (setKey A "package" V))) "$" =
      some (JsVal.obj (setKey A "package" V)) := lookupJs_setKey_self P "$" _
  have hu : updateManifestLogic (serializeParse
      [("manifest", JsVal.obj (setKey P "$" (JsVal.obj (setKey A "package" V))))]) d =
      finishMerge (setKey P "$" (JsVal.obj (setKey A "package" V)))
        (effectivePackage (lookupJs (setKey A "package" V) "package") d) := by
    simp [serializeParse, updateManifestLogic, lookupJs, hP2, getProp]
  have hpkg : lookupJs (setKey A "package" V) "package" = some V :=
    lookupJs_setKey_self A "package" V
  have heff : effectivePackage (lookupJs (setKey A "package" V) "package") d = V := by
    rw [hpkg]
    unfold effectivePackage
    cases htr : truthy V with
    | true => simp [htr]
    | false =>
        have hVd : V = JsVal.str d := by
          cases hV with
          | inl h2 => exact h2
          | inr h2 => rw [h2] at htr; exact absurd htr (by simp)
        simp [htr, hVd]
  rw [hu, heff]
  constructor
  · rw [finishMerge_eq _ _ _ hP2]
    simp
  · rw [resultPackage_finishMerge _ _ _ hP2, resultPackage_shape]

/-- C9 witness: a manifest already declaring `package="com.example"`,
merged with default `"org.def"`, re-merges to the same package value. -/
theorem c9_remerge_idempotent_witness :
    updateManifestLogic (serializeParse
        [("manifest", JsVal.obj [("$", JsVal.obj [("package", JsVal.str "com.example")])])])
        "org.def" ≠ none ∧
    resultPackage (updateManifestLogic (serializeParse
        [("manifest", JsVal.obj [("$", JsVal.obj [("package", JsVal.str "com.example")])])])
        "org.def") = resultPackage (some
        [("manifest", JsVal.obj [("$", JsVal.obj [("package", JsVal.str "com.example")])])]) :=
  c9_remerge_idempotent
    [("manifest", JsVal.obj [("$", JsVal.obj [("package", JsVal.str "com.example")])])]
    "org.def"
    [("manifest", JsVal.obj [("$", JsVal.obj [("package", JsVal.str "com.example")])])]
    rfl

/-- C10: the scanning loop of `getScope` terminates on every input — it is
a total function here, and each loop iteration consumes one position, so
the result length is bounded by the text length plus the nine characters
contributed by the `undefined` read at start index `-1`. -/
theorem c10_getScope_terminates_linear (scopeName content : String) :
    (getScope scopeName content).length ≤ 9 + content.length := by
  cases h : strIndexOf content scopeName with
  | some idx =>
      rw [getScope_eq_found _ _ _ h]
      have h2 := scanLoop_length (content.data.drop idx) 0 false []
      have h3 : (content.data.drop idx).length ≤ content.data.length := by
        rw [List.length_drop]
        omega
      have h4 : (String.mk (scanLoop (content.data.drop idx) 0 false [])).length =
          (scanLoop (content.data.drop idx) 0 false []).length := rfl
      have h5 : content.length = content.data.length := rfl
      rw [h4, h5]
      simp only [List.length_nil, Nat.zero_add] at h2
      omega
  | none =>
      rw [getScope_eq_missing _ _ h]
      have h2 := scanLoop_length content.data 0 false ("undefined".data)
      have h4 : (String.mk (scanLoop content.data 0 false ("undefined".data))).length =
          (scanLoop content.data 0 false ("undefined".data)).length := rfl
      have h5 : content.length = content.data.length := rfl
      have h6 : ("undefined".data).length = 9 := by decide
      rw [h4, h5]
      rw [h6] at h2
      omega

end AndroidPluginBuild
